import Mathlib

/-!
Verification development for the `exo` tinygrad-CPU inference shim.

The Python source is shallowly embedded: Python `str` values are modelled as
`List Char` (a Python string is a sequence of code points, and the slicing
`s[n:]` is `List.drop n`), token ids as `Nat`, fallible/`None`-able values as
`Option`, and the mutable `TinygradDetokenizer` object as explicit state
passing over a structure holding its three data attributes.  The wrapped
Hugging-Face tokenizer and the tinygrad model/sampler are external
collaborators; they enter as function parameters.
-/

/-! Detokenizer: `exo/worker/engines/tinygrad_cpu/utils_tokenizer.py`. -/

/-- State of a `TinygradDetokenizer` (utils_tokenizer.py, lines 32-41): the
three data attributes set by `__init__`.  The `tokenizer` attribute (the
wrapped external decoder) is passed to `add` as an explicit function
parameter `decode : List Nat → List Char` instead of being stored, so the
state stays first-order data. -/
structure TinygradDetokenizer where
  all_tokens : List Nat
  full_text : List Char
  current_segment : List Char
deriving DecidableEq

namespace TinygradDetokenizer

/-- `__init__` (lines 37-41): empty token list, empty full text, empty
current segment. -/
def init : TinygradDetokenizer :=
  { all_tokens := [], full_text := [], current_segment := [] }

/-- `reset` (lines 43-45): clears `all_tokens` and `full_text`.  Note the
source does not touch `current_segment`. -/
def reset (s : TinygradDetokenizer) : TinygradDetokenizer :=
  { s with all_tokens := [], full_text := [] }

/-- `add` (lines 47-55): append the token, re-decode the whole sequence; if
the decode grew strictly, the new segment is the suffix past the old
`full_text` length and `full_text` becomes the new decode; otherwise the
segment is empty and `full_text` is unchanged. -/
def add (decode : List Nat → List Char) (s : TinygradDetokenizer)
    (token : Nat) : TinygradDetokenizer :=
  let all := s.all_tokens ++ [token]
  let new_text := decode all
  if s.full_text.length < new_text.length then
    { all_tokens := all
      full_text := new_text
      current_segment := new_text.drop s.full_text.length }
  else
    { all_tokens := all
      full_text := s.full_text
      current_segment := [] }

/-- `get` (lines 57-58): returns `full_text`. -/
def get (s : TinygradDetokenizer) : List Char :=
  s.full_text

/-- `last_segment` property (lines 60-62): returns `current_segment`. -/
def last_segment (s : TinygradDetokenizer) : List Char :=
  s.current_segment

/-- Run a sequence of `add` calls, returning the final state. -/
def runFrom (decode : List Nat → List Char) (s : TinygradDetokenizer) :
    List Nat → TinygradDetokenizer
  | [] => s
  | t :: ts => runFrom decode (add decode s t) ts

/-- The `current_segment` values observed after each `add` of a sequence of
`add` calls, in order. -/
def segsFrom (decode : List Nat → List Char) (s : TinygradDetokenizer) :
    List Nat → List (List Char)
  | [] => []
  | t :: ts => (add decode s t).current_segment :: segsFrom decode (add decode s t) ts

end TinygradDetokenizer

/-- The decode function has non-decreasing output length as tokens are
appended (the hypothesis as worded by the claim). -/
def DecodeLenMono (decode : List Nat → List Char) : Prop :=
  ∀ ts t, (decode ts).length ≤ (decode (ts ++ [t])).length

/-- The decode function literally extends its previous output as tokens are
appended: decoding `ts ++ [t]` yields the decode of `ts` followed by some
suffix.  This is strictly stronger than `DecodeLenMono`. -/
def DecodeExtends (decode : List Nat → List Char) : Prop :=
  ∀ ts t, ∃ u, decode (ts ++ [t]) = decode ts ++ u

/-- Invariant tying a detokenizer state to the decode function: `full_text`
is the decode of `all_tokens`, except in the pristine state where both are
empty (the decode of `[]` is never consulted by `add`). -/
def FullInv (decode : List Nat → List Char) (s : TinygradDetokenizer) : Prop :=
  s.full_text = decode s.all_tokens ∨ (s.all_tokens = [] ∧ s.full_text = [])

/-- One `add` step under `DecodeExtends`: the new `full_text` is the old one
followed by the new `current_segment`, and `FullInv` is preserved. -/
theorem add_append_segment (decode : List Nat → List Char)
    (s : TinygradDetokenizer) (t : Nat)
    (hext : DecodeExtends decode) (hinv : FullInv decode s) :
    (TinygradDetokenizer.add decode s t).full_text
      = s.full_text ++ (TinygradDetokenizer.add decode s t).current_segment
    ∧ FullInv decode (TinygradDetokenizer.add decode s t) := by
  obtain ⟨u, hu⟩ : ∃ u, decode (s.all_tokens ++ [t]) = s.full_text ++ u := by
    rcases hinv with h | ⟨h1, h2⟩
    · obtain ⟨u, hu⟩ := hext s.all_tokens t
      exact ⟨u, by rw [hu, h]⟩
    · exact ⟨decode (s.all_tokens ++ [t]), by rw [h1, h2]; rfl⟩
  unfold TinygradDetokenizer.add
  simp only [hu]
  by_cases hlt : s.full_text.length < (s.full_text ++ u).length
  · rw [if_pos hlt]
    refine ⟨?_, ?_⟩
    · simp [List.drop_left]
    · left
      simp [hu]
  · rw [if_neg hlt]
    have hu0 : u = [] := by
      have := List.length_append s.full_text u
      have hle : (s.full_text ++ u).length ≤ s.full_text.length := Nat.le_of_not_lt hlt
      have : u.length = 0 := by omega
      exact List.eq_nil_of_length_eq_zero this
    subst hu0
    refine ⟨by simp, ?_⟩
    left
    simp [hu]

/-- Running `add` over a token list under `DecodeExtends`: the final
`full_text` is the starting `full_text` followed by the concatenation of all
observed segments, and `FullInv` is preserved. -/
theorem runFrom_full_eq (decode : List Nat → List Char)
    (hext : DecodeExtends decode) :
    ∀ (ts : List Nat) (s : TinygradDetokenizer), FullInv decode s →
      (TinygradDetokenizer.runFrom decode s ts).full_text
        = s.full_text ++ (TinygradDetokenizer.segsFrom decode s ts).flatten
      ∧ FullInv decode (TinygradDetokenizer.runFrom decode s ts) := by
  intro ts
  induction ts with
  | nil =>
    intro s hinv
    exact ⟨by simp [TinygradDetokenizer.runFrom, TinygradDetokenizer.segsFrom], hinv⟩
  | cons t ts ih =>
    intro s hinv
    obtain ⟨hfull, hinv2⟩ := add_append_segment decode s t hext hinv
    obtain ⟨ihfull, ihinv⟩ := ih (TinygradDetokenizer.add decode s t) hinv2
    refine ⟨?_, ?_⟩
    · rw [TinygradDetokenizer.runFrom, TinygradDetokenizer.segsFrom, ihfull, hfull]
      simp [List.append_assoc]
    · rw [TinygradDetokenizer.runFrom]
      exact ihinv

/-- A decode function with globally non-decreasing output length that
re-segments: every token list decodes to one `'Z'` per token, except `[0]`
which decodes to `['X']` (same length 1).  Appending a token never shrinks
the decode, yet the decode of `[0]` is not a prefix of the decode of
`[0, 1]`. -/
def cexDecode : List Nat → List Char :=
  fun ts => if ts = [0] then ['X'] else ts.map (fun _ => 'Z')

theorem cexDecode_length (ts : List Nat) : (cexDecode ts).length = ts.length := by
  unfold cexDecode
  split
  · simp_all
  · simp

/-- C2, counterexample: `cexDecode` satisfies the claim's hypothesis
(non-decreasing decode length as tokens are appended), but on the token
sequence `[0, 1]` fed to a fresh `TinygradDetokenizer` the in-order
concatenation of the observed `current_segment` values is `['X', 'Z']` while
the final `full_text` is `['Z', 'Z']`: the claimed equality fails. -/
theorem claim2_counterexample :
    DecodeLenMono cexDecode
    ∧ (TinygradDetokenizer.segsFrom cexDecode TinygradDetokenizer.init [0, 1]).flatten
        ≠ (TinygradDetokenizer.runFrom cexDecode TinygradDetokenizer.init [0, 1]).full_text
    ∧ (TinygradDetokenizer.segsFrom cexDecode TinygradDetokenizer.init [0, 1]).flatten
        = ['X', 'Z']
    ∧ (TinygradDetokenizer.runFrom cexDecode TinygradDetokenizer.init [0, 1]).full_text
        = ['Z', 'Z'] := by
  refine ⟨?_, by decide, by decide, by decide⟩
  intro ts t
  rw [cexDecode_length, cexDecode_length]
  simp

/-- C2, amended: for every sequence of `add` calls on a freshly constructed
or freshly reset `TinygradDetokenizer` whose wrapped decode function extends
its previous output as tokens are appended (each decode of a longer token
sequence begins with the decode of the shorter one), the in-order
concatenation of the observed `current_segment` values equals the final
`full_text` exactly.  A freshly constructed or freshly reset state is any
state with empty `all_tokens` and empty `full_text`. -/
theorem claim2_amended_segments_join (decode : List Nat → List Char)
    (ts : List Nat) (s0 : TinygradDetokenizer)
    (hext : DecodeExtends decode)
    (hall : s0.all_tokens = []) (hfull : s0.full_text = []) :
    (TinygradDetokenizer.segsFrom decode s0 ts).flatten
      = (TinygradDetokenizer.runFrom decode s0 ts).full_text := by
  obtain ⟨h, -⟩ := runFrom_full_eq decode hext ts s0 (Or.inr ⟨hall, hfull⟩)
  rw [h, hfull]
  rfl

/-- A concrete extension-monotone decode: one `'a'` per token. -/
def wDecode : List Nat → List Char :=
  fun ts => List.replicate ts.length 'a'

theorem claim2_amended_witness :
    (TinygradDetokenizer.segsFrom wDecode TinygradDetokenizer.init [5, 6]).flatten
      = (TinygradDetokenizer.runFrom wDecode TinygradDetokenizer.init [5, 6]).full_text :=
  claim2_amended_segments_join wDecode [5, 6] TinygradDetokenizer.init
    (fun ts t => ⟨['a'], by simp [wDecode, List.replicate_succ']⟩) rfl rfl

/-- C5: a single `add token` call appends the token to `all_tokens` and
re-decodes the entire updated sequence; if the new decode is strictly longer
than the previous `full_text`, `current_segment` is the new decode's suffix
from the old `full_text` length onward and `full_text` becomes the new
decode; otherwise `current_segment` is empty and `full_text` is unchanged. -/
theorem claim5_add_step (decode : List Nat → List Char)
    (s : TinygradDetokenizer) (t : Nat) :
    (TinygradDetokenizer.add decode s t).all_tokens = s.all_tokens ++ [t]
    ∧ (TinygradDetokenizer.add decode s t).full_text
        = (if s.full_text.length < (decode (s.all_tokens ++ [t])).length
            then decode (s.all_tokens ++ [t]) else s.full_text)
    ∧ (TinygradDetokenizer.add decode s t).current_segment
        = (if s.full_text.length < (decode (s.all_tokens ++ [t])).length
            then (decode (s.all_tokens ++ [t])).drop s.full_text.length
            else []) := by
  unfold TinygradDetokenizer.add
  rcases Nat.lt_or_ge s.full_text.length (decode (s.all_tokens ++ [t])).length with h | h
  · simp only [if_pos h]
    exact ⟨trivial, trivial, trivial⟩
  · simp only [if_neg (Nat.not_lt.mpr h)]
    exact ⟨trivial, trivial, trivial⟩

/-- C8: after `reset()` in any state, `get()` returns the empty string and
`all_tokens` is the empty list, and every subsequent non-empty sequence of
`add` calls drives the detokenizer through exactly the states a freshly
constructed instance would reach, with identical observed segments. -/
theorem claim8_reset_fresh (decode : List Nat → List Char)
    (s : TinygradDetokenizer) (t : Nat) (ts : List Nat) :
    TinygradDetokenizer.get (TinygradDetokenizer.reset s) = []
    ∧ (TinygradDetokenizer.reset s).all_tokens = []
    ∧ TinygradDetokenizer.runFrom decode (TinygradDetokenizer.reset s) (t :: ts)
        = TinygradDetokenizer.runFrom decode TinygradDetokenizer.init (t :: ts)
    ∧ TinygradDetokenizer.segsFrom decode (TinygradDetokenizer.reset s) (t :: ts)
        = TinygradDetokenizer.segsFrom decode TinygradDetokenizer.init (t :: ts) := by
  have hadd : TinygradDetokenizer.add decode (TinygradDetokenizer.reset s) t
      = TinygradDetokenizer.add decode TinygradDetokenizer.init t := rfl
  refine ⟨rfl, rfl, ?_, ?_⟩
  · rw [TinygradDetokenizer.runFrom, TinygradDetokenizer.runFrom, hadd]
  · rw [TinygradDetokenizer.segsFrom, TinygradDetokenizer.segsFrom, hadd]

/-- C9: `reset()` does not touch `current_segment`: reading `last_segment`
after a reset returns the pre-reset segment, unlike a freshly constructed
instance, whose `last_segment` is empty. -/
theorem claim9_reset_keeps_segment (s : TinygradDetokenizer) :
    TinygradDetokenizer.last_segment (TinygradDetokenizer.reset s)
      = TinygradDetokenizer.last_segment s
    ∧ (TinygradDetokenizer.reset s).current_segment = s.current_segment
    ∧ TinygradDetokenizer.last_segment TinygradDetokenizer.init = [] :=
  ⟨rfl, rfl, rfl⟩

/-! Tokenizer wrapper and generation loop:
`utils_tokenizer.py` (TinygradTokenizer) and `generator/generate.py` -/

/-- Modelled from the spec: `ChatCompletionMessage` from
`exo.shared.types.api`, which is not under `src/` — "ordered sequence of
chat messages (role, content)". -/
structure ChatCompletionMessage where
  role : String
  content : String
deriving DecidableEq

/-- Modelled from the spec: `ChatCompletionTaskParams` from
`exo.shared.types.api`, which is not under `src/` — a model identifier, the
messages, and an optional maximum-token cap. -/
structure ChatCompletionTaskParams where
  model : String
  messages : List ChatCompletionMessage
  max_tokens : Option Nat
deriving DecidableEq

/-- Modelled from the spec: `GenerationResponse` from
`exo.shared.types.runner_response`, which is not under `src/` — the text
delta, the token id, and an optional finish reason (the source uses the
strings "stop" and "length"). -/
structure GenerationResponse where
  text : List Char
  token : Nat
  finish_reason : Option String
deriving DecidableEq

/-- Modelled from the spec: the default cap `MAX_TOKENS` from
`exo.worker.engines.tinygrad_cpu.constants`, which is not under `src/` —
"a fixed default constant"; its concrete value is unspecified there, any
positive constant works for the claims. -/
def MAX_TOKENS : Nat := 512

/-- The external Hugging-Face tokenizer, at the interface surface consumed
by the wrapper: `bos_token`, `eos_token`, `encode`, `decode`, and
`apply_message_template(conversation, tokenize, add_generation_prompt)`.
The repository's own unit test (`tests_tokenizer.py`) drives `eos_token`
with a token id. -/
structure HFTok where
  bos_token : Option String
  eos_token : Option Nat
  encode : String → List Nat
  decode : List Nat → List Char
  apply_message_template : List ChatCompletionMessage → Bool → Bool → String

/-- State of a `TinygradTokenizer` (utils_tokenizer.py, lines 4-12). -/
structure TinygradTokenizer where
  tokenizer : HFTok
  detokenizer : TinygradDetokenizer
  bos_token : Option String
  eos_token_ids : List Nat

/-- `TinygradTokenizer.__init__` (lines 5-12): wraps the tokenizer, builds a
fresh detokenizer, copies `bos_token`, and sets `eos_token_ids` to the empty
list extended with `eos_token` when that is not `None`. -/
def TinygradTokenizer.init (hf : HFTok) : TinygradTokenizer :=
  { tokenizer := hf
    detokenizer := TinygradDetokenizer.init
    bos_token := hf.bos_token
    eos_token_ids :=
      match hf.eos_token with
      | none => []
      | some e => [e] }

/-- The stopping evaluation inlined at generate.py lines 72-77:
`finish_reason = "stop"` when `tokenizer.eos_token_ids` is truthy (a
non-`None`, non-empty list — `none.getD [] = []` models Python's falsy
`None`) and the sampled token is a member; else `"length"` exactly when the
step index is `max_tokens - 1`; else no finish reason. -/
def stoppingEvaluate (eos_token_ids : Option (List Nat)) (next_token : Nat)
    (idx : Nat) (max_tokens : Nat) : Option String :=
  if eos_token_ids.getD [] ≠ [] ∧ next_token ∈ eos_token_ids.getD [] then
    some "stop"
  else if idx = max_tokens - 1 then
    some "length"
  else
    none

/-- `max_tokens = task.max_tokens or MAX_TOKENS` (generate.py line 47):
Python's `or` takes the right operand when the left is falsy, and both
`None` and `0` are falsy. -/
def resolveMaxTokens (task_max_tokens : Option Nat) : Nat :=
  match task_max_tokens with
  | none => MAX_TOKENS
  | some 0 => MAX_TOKENS
  | some n => n

/-- One record per executed loop step of generate.py, keeping, besides the
yielded response, the observables of the step: the step index `idx`, the
token batch fed to the model (`x`, as its list of token ids), and the
`start_pos` value passed to the model. -/
structure StepRec where
  idx : Nat
  model_input : List Nat
  pos_before : Nat
  next_token : Nat
  response : GenerationResponse
deriving DecidableEq

/-- The body of generate.py's loop (lines 50-87), with the undefined name
`ranges` at line 50 read as the builtin `range` — the reading forced by the
module's own comments and unit tests; iteration is by remaining-step fuel,
with `fuel = max_tokens - idx` at every call, so `idx` runs over
`range(max_tokens)`.  Per step: feed the whole buffer at step 0 and the
single last token later (the source comments record the input shapes
`(1, seq_len)` and `(1, 1)`, so `x.shape[1]` — the amount `start_pos` is
advanced by — is the length of the fed token list); sample; append the
token; advance `start_pos`; feed the detokenizer; evaluate the stopping
check; yield; break if a finish reason was set.  The model and sampler are
the external collaborators: `model` maps the fed token list and `start_pos`
to logits of an opaque type `L`, and `sampler` maps the logits (the source
slices the final position first) to the next token id. -/
def genLoop {L : Type} (model : List Nat → Nat → L) (sampler : L → Nat)
    (decode : List Nat → List Char) (eos_token_ids : Option (List Nat))
    (max_tokens : Nat) :
    Nat → Nat → List Nat → Nat → TinygradDetokenizer → List StepRec
  | 0, _, _, _, _ => []
  | fuel + 1, idx, curr_tokens, start_pos, detok =>
    let x : List Nat :=
      if idx = 0 then curr_tokens else [curr_tokens.getLastD 0]
    let next_token : Nat := sampler (model x start_pos)
    let detok2 := TinygradDetokenizer.add decode detok next_token
    let finish_reason := stoppingEvaluate eos_token_ids next_token idx max_tokens
    { idx := idx
      model_input := x
      pos_before := start_pos
      next_token := next_token
      response :=
        { text := detok2.current_segment
          token := next_token
          finish_reason := finish_reason } }
      :: (match finish_reason with
          | some _ => []
          | none =>
            genLoop model sampler decode eos_token_ids max_tokens fuel
              (idx + 1) (curr_tokens ++ [next_token]) (start_pos + x.length)
              detok2)

/-- generate.py lines 31-87 with line 50's undefined `ranges` read as
`range` (see `genLoop`): render the prompt through the chat template with
`add_generation_prompt=True`, encode it, reset the detokenizer, resolve
`max_tokens`, and run the loop from index 0, buffer = prompt tokens,
`start_pos = 0`.  Returns the full step trace. -/
def tinygrad_generate_intended {L : Type} (model : List Nat → Nat → L)
    (sampler : L → Nat) (tokenizer : TinygradTokenizer)
    (task : ChatCompletionTaskParams) : List StepRec :=
  let prompt_text := tokenizer.tokenizer.apply_message_template task.messages false true
  let tokens := tokenizer.tokenizer.encode prompt_text
  let detok := TinygradDetokenizer.reset tokenizer.detokenizer
  let max_tokens := resolveMaxTokens task.max_tokens
  genLoop model sampler tokenizer.tokenizer.decode (some tokenizer.eos_token_ids)
    max_tokens max_tokens 0 tokens 0 detok

/-- The sequence of `GenerationResponse` values yielded by the intended
loop, in order. -/
def tinygrad_generate_intended_responses {L : Type} (model : List Nat → Nat → L)
    (sampler : L → Nat) (tokenizer : TinygradTokenizer)
    (task : ChatCompletionTaskParams) : List GenerationResponse :=
  (tinygrad_generate_intended model sampler tokenizer task).map (fun r => r.response)

/-- A Python runtime error, for the embedding of fallible code. -/
inductive PyErr where
  | nameError (name : String)
deriving DecidableEq

/-- generate.py lines 31-87 as written: the prelude (lines 38-48 — template
rendering, encoding, detokenizer reset, counter setup) runs, but line 50
iterates `ranges(max_tokens)` and `ranges` is an undefined name — it is not
defined in the module, not imported, and not a Python builtin — so the
first consumption of the generator raises `NameError` before any loop step
executes, and no `GenerationResponse` is ever yielded.  The result is the
list of yielded responses paired with the raised error. -/
def tinygrad_generate {L : Type} (model : List Nat → Nat → L)
    (sampler : L → Nat) (tokenizer : TinygradTokenizer)
    (task : ChatCompletionTaskParams) :
    List GenerationResponse × Option PyErr :=
  ([], some (PyErr.nameError "ranges"))

/-- When the sampled token is not an EOS token, the stopping evaluation is
decided by the length check alone. -/
theorem stoppingEvaluate_not_mem (eos : List Nat) (tok idx mt : Nat)
    (h : tok ∉ eos) :
    stoppingEvaluate (some eos) tok idx mt
      = if idx = mt - 1 then some "length" else none := by
  simp only [stoppingEvaluate, Option.getD_some]
  rw [if_neg (fun hc => h hc.2)]

/-- C3: `TinygradTokenizer.__init__` exposes `eos_token_ids` as the empty
list when the wrapped tokenizer has no end-of-sequence token, and as the
one-element list holding the wrapped tokenizer's end-of-sequence token id
otherwise; with this list, the loop's stopping evaluation returns "stop"
exactly when the sampled token is a member of `eos_token_ids`. -/
theorem claim3_eos_token_ids (hf : HFTok) :
    (TinygradTokenizer.init hf).eos_token_ids
      = (match hf.eos_token with
         | none => []
         | some e => [e])
    ∧ ∀ tok idx mt,
        (stoppingEvaluate (some (TinygradTokenizer.init hf).eos_token_ids) tok idx mt
            = some "stop"
          ↔ tok ∈ (TinygradTokenizer.init hf).eos_token_ids) := by
  refine ⟨rfl, ?_⟩
  intro tok idx mt
  by_cases hmem : tok ∈ (TinygradTokenizer.init hf).eos_token_ids
  · have hcond : (TinygradTokenizer.init hf).eos_token_ids ≠ []
        ∧ tok ∈ (TinygradTokenizer.init hf).eos_token_ids :=
      ⟨List.ne_nil_of_mem hmem, hmem⟩
    simp only [stoppingEvaluate, Option.getD_some]
    rw [if_pos hcond]
    simp [hmem]
  · rw [stoppingEvaluate_not_mem _ _ _ _ hmem]
    constructor
    · intro hc
      exact absurd hc (by split <;> decide)
    · intro hc
      exact absurd hc hmem

/-- C4: at a step whose token is a member of the (necessarily non-empty)
`eos_token_ids` and whose index is `max_tokens - 1`, the stopping evaluation
returns "stop" and not "length"; and with an empty or absent
`eos_token_ids` the stop branch never fires at any step: for every token
`t`, step index `i` and cap `m` whatsoever (bound independently of the
tie-break hypotheses), the evaluation never returns "stop". -/
theorem claim4_stop_priority (eos_token_ids : List Nat)
    (next_token idx max_tokens i m t : Nat)
    (hmem : next_token ∈ eos_token_ids) (hlast : idx = max_tokens - 1) :
    stoppingEvaluate (some eos_token_ids) next_token idx max_tokens = some "stop"
    ∧ stoppingEvaluate (some eos_token_ids) next_token idx max_tokens ≠ some "length"
    ∧ stoppingEvaluate (some []) t i m ≠ some "stop"
    ∧ stoppingEvaluate none t i m ≠ some "stop" := by
  have h1 : stoppingEvaluate (some eos_token_ids) next_token idx max_tokens
      = some "stop" := by
    simp only [stoppingEvaluate, Option.getD_some]
    rw [if_pos ⟨List.ne_nil_of_mem hmem, hmem⟩]
  refine ⟨h1, by rw [h1]; decide, ?_, ?_⟩
  · simp only [stoppingEvaluate, Option.getD_some]
    rw [if_neg (by simp)]
    split <;> decide
  · simp only [stoppingEvaluate, Option.getD_none]
    rw [if_neg (by simp)]
    split <;> decide

theorem claim4_stop_priority_witness :
    stoppingEvaluate (some [7]) 7 4 5 = some "stop"
    ∧ stoppingEvaluate (some [7]) 7 4 5 ≠ some "length"
    ∧ stoppingEvaluate (some []) 9 0 5 ≠ some "stop"
    ∧ stoppingEvaluate none 9 0 5 ≠ some "stop" :=
  claim4_stop_priority [7] 7 4 5 0 5 9 (by decide) (by decide)

/-- C10: `task.max_tokens or MAX_TOKENS` resolves to the default constant
`MAX_TOKENS` when the request's `max_tokens` is absent or `0` (both falsy in
Python), and to the request's own value exactly when that value is
nonzero. -/
theorem claim10_max_tokens_default :
    resolveMaxTokens none = MAX_TOKENS
    ∧ resolveMaxTokens (some 0) = MAX_TOKENS
    ∧ ∀ n : Nat, resolveMaxTokens (some (n + 1)) = n + 1 :=
  ⟨rfl, rfl, fun _ => rfl⟩

/-- Spec §8 property 4 on the intended loop: when the sampler never produces
an EOS token, every step of the loop body runs to the iteration bound, the
final step alone carries finish reason "length", and all earlier steps carry
none.  Stated over the loop body at any fuel/index satisfying the loop's
invariant `idx + fuel = max_tokens`. -/
theorem genLoop_no_eos_reasons {L : Type} (model : List Nat → Nat → L)
    (sampler : L → Nat) (decode : List Nat → List Char) (eos : List Nat)
    (mt : Nat) (hs : ∀ x p, sampler (model x p) ∉ eos) :
    ∀ (fuel idx : Nat) (curr : List Nat) (pos : Nat) (st : TinygradDetokenizer),
      0 < fuel → idx + fuel = mt →
      (genLoop model sampler decode (some eos) mt fuel idx curr pos st).map
          (fun r => r.response.finish_reason)
        = List.replicate (fuel - 1) none ++ [some "length"] := by
  intro fuel
  induction fuel with
  | zero =>
    intro idx curr pos st hpos
    exact absurd hpos (Nat.lt_irrefl 0)
  | succ f ih =>
    intro idx curr pos st _ hsum
    simp only [genLoop]
    rw [stoppingEvaluate_not_mem eos
      (sampler (model (if idx = 0 then curr else [curr.getLastD 0]) pos)) idx mt
      (hs _ _)]
    rcases Nat.eq_zero_or_pos f with hf | hf
    · subst hf
      rw [if_pos (by omega : idx = mt - 1)]
      simp
    · rw [if_neg (by omega : ¬ idx = mt - 1)]
      simp only [List.map_cons]
      rw [ih (idx + 1) _ _ _ hf (by omega)]
      have hrep : (none : Option String) :: List.replicate (f - 1) none
          = List.replicate f none := by
        conv_rhs => rw [show f = f - 1 + 1 by omega]
        rw [List.replicate_succ]
      rw [Nat.add_sub_cancel, ← hrep, List.cons_append]

/-- The intended loop at the top level: for a request with
`max_tokens = N ≥ 1` and a sampler/model pair that never produces a token in
`eos_token_ids`, exactly `N` responses are yielded, the earlier ones with no
finish reason and the last with "length". -/
theorem tinygrad_generate_intended_no_eos {L : Type} (model : List Nat → Nat → L)
    (sampler : L → Nat) (tokenizer : TinygradTokenizer)
    (task : ChatCompletionTaskParams) (N : Nat)
    (hN : task.max_tokens = some N) (hpos : 0 < N)
    (hs : ∀ x p, sampler (model x p) ∉ tokenizer.eos_token_ids) :
    (tinygrad_generate_intended_responses model sampler tokenizer task).map
        (fun r => r.finish_reason)
      = List.replicate (N - 1) none ++ [some "length"]
    ∧ (tinygrad_generate_intended_responses model sampler tokenizer task).length = N := by
  have hres : resolveMaxTokens task.max_tokens = N := by
    rw [hN]
    match N, hpos with
    | n + 1, _ => rfl
  have hmap :
      (tinygrad_generate_intended model sampler tokenizer task).map
          (fun r => r.response.finish_reason)
        = List.replicate (N - 1) none ++ [some "length"] := by
    unfold tinygrad_generate_intended
    rw [hres]
    exact genLoop_no_eos_reasons model sampler _ _ N hs N 0 _ 0 _ hpos (by omega)
  constructor
  · rw [tinygrad_generate_intended_responses, List.map_map]
    exact hmap
  · have hlen := congrArg List.length hmap
    simp only [List.length_map, List.length_append, List.length_replicate,
      List.length_cons, List.length_nil] at hlen
    rw [tinygrad_generate_intended_responses, List.length_map]
    omega

/-- A concrete external model for closed evaluations: logits are
`x.length + start_pos`. -/
def cModel : List Nat → Nat → Nat := fun x pos => x.length + pos

/-- A concrete external sampler for closed evaluations: `logits + 1`. -/
def cSampler : Nat → Nat := fun l => l + 1

/-- A concrete wrapped tokenizer with no EOS token: every prompt encodes to
`[1, 2]`, and decoding yields one `'a'` per token. -/
def cHF : HFTok :=
  { bos_token := none
    eos_token := none
    encode := fun _ => [1, 2]
    decode := fun ts => List.replicate ts.length 'a'
    apply_message_template := fun _ _ _ => "prompt" }

/-- A concrete request with `max_tokens = 3`. -/
def cTask : ChatCompletionTaskParams :=
  { model := "m"
    messages := [{ role := "user", content := "hi" }]
    max_tokens := some 3 }

/-- C1: at the concrete request `cTask` (`max_tokens = 3`) with a tokenizer
that has no EOS tokens, `tinygrad_generate` as written yields no
`GenerationResponse` at all — the first consumption raises
`NameError` on the undefined name `ranges` at generate.py line 50 — while
the loop as specified (`ranges` read as `range`) yields exactly 3 responses,
the first two with no finish reason and the last with "length". -/
theorem claim1_generate_name_error :
    tinygrad_generate cModel cSampler (TinygradTokenizer.init cHF) cTask
      = ([], some (PyErr.nameError "ranges"))
    ∧ (tinygrad_generate_intended_responses cModel cSampler
          (TinygradTokenizer.init cHF) cTask).map (fun r => r.finish_reason)
        = [none, none, some "length"]
    ∧ (tinygrad_generate_intended_responses cModel cSampler
          (TinygradTokenizer.init cHF) cTask).length = 3 :=
  ⟨rfl, by decide, by decide⟩

/-- A concrete wrapped tokenizer whose prompts encode to the three tokens
`[4, 5, 6]`. -/
def cHF7 : HFTok :=
  { bos_token := none
    eos_token := none
    encode := fun _ => [4, 5, 6]
    decode := fun ts => List.replicate ts.length 'b'
    apply_message_template := fun _ _ _ => "q" }

/-- A concrete request with `max_tokens = 3` for the step-trace evaluation. -/
def cTask7 : ChatCompletionTaskParams :=
  { model := "m"
    messages := [{ role := "user", content := "hey" }]
    max_tokens := some 3 }

/-- C7: `tinygrad_generate` as written raises `NameError` on the undefined
name `ranges` before any step, so the model is never invoked; the loop as
specified, evaluated at the concrete prompt `[4, 5, 6]`, feeds the model the
entire token buffer on step 0 and exactly the single most recently appended
token on each later step (the sampled tokens being 4 then 5), and passes
position counters 0, then `prompt_length = 3`, then `prompt_length + 1 =
4`. -/
theorem claim7_inputs_and_positions :
    tinygrad_generate cModel cSampler (TinygradTokenizer.init cHF7) cTask7
      = ([], some (PyErr.nameError "ranges"))
    ∧ (tinygrad_generate_intended cModel cSampler
          (TinygradTokenizer.init cHF7) cTask7).map (fun r => r.model_input)
        = [[4, 5, 6], [4], [5]]
    ∧ (tinygrad_generate_intended cModel cSampler
          (TinygradTokenizer.init cHF7) cTask7).map (fun r => r.next_token)
        = [4, 5, 6]
    ∧ (tinygrad_generate_intended cModel cSampler
          (TinygradTokenizer.init cHF7) cTask7).map (fun r => r.pos_before)
        = [0, 3, 4]
    ∧ (tinygrad_generate_intended cModel cSampler
          (TinygradTokenizer.init cHF7) cTask7).map (fun r => r.idx)
        = [0, 1, 2] :=
  ⟨rfl, by decide, by decide, by decide, by decide⟩

/-! Instance data model: spec §4.5 / §6, exercised by
`src/exo/shared/tests/test_instances.py`.  The types live in
`exo.shared.types.worker.instances`, `exo.shared.types.worker.runners` and
`exo.shared.types.common`, which are not under `src/`; they are modelled
from the spec. -/

/-- A JSON-like wire value. -/
inductive Json where
  | str : String → Json
  | num : Nat → Json
  | arr : List Json → Json
  | obj : List (String × Json) → Json

/-- Modelled from the spec: `Host` from `exo.shared.types.common` (not under
`src/`) — a network host endpoint, "ip + port". -/
structure Host where
  ip : String
  port : Nat
deriving DecidableEq

/-- Modelled from the spec: `ShardAssignments` from
`exo.shared.types.worker.runners` (not under `src/`) — for one model id, a
keyed mapping from runner identifier to shard descriptor and a keyed mapping
from node identifier to runner identifier.  The opaque shard descriptor is
modelled as a string; the keyed mappings as association lists. -/
structure ShardAssignments where
  model_id : String
  runner_to_shard : List (String × String)
  node_to_runner : List (String × String)
deriving DecidableEq

/-- Modelled from the spec: `TinygradCPUInstance` from
`exo.shared.types.worker.instances` (not under `src/`) — the CPU-backed
Instance variant: unique instance identifier, shard-assignment descriptor,
ordered list of hosts. -/
structure TinygradCPUInstance where
  instance_id : String
  shard_assignments : ShardAssignments
  hosts : List Host
deriving DecidableEq

/-- Modelled from the spec: the `Instance` tagged union from
`exo.shared.types.worker.instances` (not under `src/`).  The core covers the
CPU-backed variant. -/
inductive Instance where
  | tinygradCPU : TinygradCPUInstance → Instance
deriving DecidableEq

/-- The discriminant naming an `Instance` variant on the wire. -/
def Instance.discriminant : Instance → String
  | .tinygradCPU _ => "TinygradCPUInstance"

/-- Encode a host with the canonical lower-camel-case field names. -/
def encodeHost (h : Host) : Json :=
  .obj [("ip", .str h.ip), ("port", .num h.port)]

/-- Encode a string-to-string keyed mapping as a JSON object. -/
def encodeStrMap (m : List (String × String)) : Json :=
  .obj (m.map (fun p => (p.1, Json.str p.2)))

/-- Encode `ShardAssignments` with the canonical lower-camel-case field
names of the wire format. -/
def encodeShardAssignments (sa : ShardAssignments) : Json :=
  .obj [("modelId", .str sa.model_id),
        ("runnerToShard", encodeStrMap sa.runner_to_shard),
        ("nodeToRunner", encodeStrMap sa.node_to_runner)]

/-- Encode the CPU variant's field structure. -/
def encodeTinygradCPUInstance (i : TinygradCPUInstance) : Json :=
  .obj [("instanceId", .str i.instance_id),
        ("shardAssignments", encodeShardAssignments i.shard_assignments),
        ("hosts", .arr (i.hosts.map encodeHost))]

/-- Modelled from the spec: serialization of an `Instance` — "a structure
whose top level has exactly one key equal to the variant's discriminant
name, whose value is the variant's field structure with each field under its
(network-facing) canonical name". -/
def encodeInstance : Instance → Json
  | .tinygradCPU i => .obj [(Instance.discriminant (.tinygradCPU i), encodeTinygradCPUInstance i)]

/-- Instance deserialization error conditions named by the spec. -/
inductive DecodeErr where
  | unknownVariant
  | malformedFields
deriving DecidableEq

/-- Look a key up in a JSON object's field list. -/
def jLookup (fields : List (String × Json)) (k : String) : Option Json :=
  (fields.find? (fun p => p.1 == k)).map (fun p => p.2)

/-- Decode a host object by field lookup. -/
def decodeHost : Json → Option Host
  | .obj fs =>
    match jLookup fs "ip", jLookup fs "port" with
    | some (.str ip), some (.num port) => some { ip := ip, port := port }
    | _, _ => none
  | _ => none

/-- Decode a list of host objects, failing if any element fails. -/
def decodeHostList : List Json → Option (List Host)
  | [] => some []
  | j :: js =>
    match decodeHost j, decodeHostList js with
    | some h, some hs => some (h :: hs)
    | _, _ => none

/-- Decode a JSON object's fields back into a string-to-string keyed
mapping, failing on any non-string value. -/
def decodeStrPairs : List (String × Json) → Option (List (String × String))
  | [] => some []
  | (k, .str v) :: rest =>
    match decodeStrPairs rest with
    | some m => some ((k, v) :: m)
    | none => none
  | _ => none

/-- Decode a string-to-string keyed mapping. -/
def decodeStrMap : Json → Option (List (String × String))
  | .obj fs => decodeStrPairs fs
  | _ => none

/-- Decode `ShardAssignments` by field lookup. -/
def decodeShardAssignments (j : Json) : Option ShardAssignments :=
  match j with
  | .obj fs =>
    match jLookup fs "modelId", jLookup fs "runnerToShard", jLookup fs "nodeToRunner" with
    | some (.str mid), some rts, some ntr =>
      match decodeStrMap rts, decodeStrMap ntr with
      | some m1, some m2 =>
        some { model_id := mid, runner_to_shard := m1, node_to_runner := m2 }
      | _, _ => none
    | _, _, _ => none
  | _ => none

/-- Decode the CPU variant's field structure by field lookup. -/
def decodeTinygradCPUInstance (j : Json) : Option TinygradCPUInstance :=
  match j with
  | .obj fs =>
    match jLookup fs "instanceId", jLookup fs "shardAssignments", jLookup fs "hosts" with
    | some (.str iid), some sa, some (.arr hs) =>
      match decodeShardAssignments sa, decodeHostList hs with
      | some sad, some hsd =>
        some { instance_id := iid, shard_assignments := sad, hosts := hsd }
      | _, _ => none
    | _, _, _ => none
  | _ => none

/-- Modelled from the spec: deserialization through the `Instance` union —
select the variant by the single top-level discriminant key; an
unrecognized discriminant is `UnknownVariant`, and absent or ill-shaped
fields (or an ill-shaped top level) are `MalformedFields`. -/
def decodeInstance : Json → Except DecodeErr Instance
  | .obj [(k, v)] =>
    if k = "TinygradCPUInstance" then
      match decodeTinygradCPUInstance v with
      | some i => .ok (.tinygradCPU i)
      | none => .error .malformedFields
    else
      .error .unknownVariant
  | _ => .error .malformedFields

theorem decodeHost_encode (h : Host) : decodeHost (encodeHost h) = some h := by
  simp [decodeHost, encodeHost, jLookup, List.find?]

theorem decodeHostList_encode (hs : List Host) :
    decodeHostList (hs.map encodeHost) = some hs := by
  induction hs with
  | nil => rfl
  | cons h rest ih => simp [decodeHostList, decodeHost_encode, ih]

theorem decodeStrPairs_encode (m : List (String × String)) :
    decodeStrPairs (m.map (fun p => (p.1, Json.str p.2))) = some m := by
  induction m with
  | nil => rfl
  | cons p rest ih =>
    obtain ⟨a, b⟩ := p
    simp [decodeStrPairs, ih]

theorem decodeShardAssignments_encode (sa : ShardAssignments) :
    decodeShardAssignments (encodeShardAssignments sa) = some sa := by
  simp [decodeShardAssignments, encodeShardAssignments, encodeStrMap, jLookup,
    List.find?, decodeStrMap, decodeStrPairs_encode]

theorem decodeTinygradCPUInstance_encode (i : TinygradCPUInstance) :
    decodeTinygradCPUInstance (encodeTinygradCPUInstance i) = some i := by
  simp [decodeTinygradCPUInstance, encodeTinygradCPUInstance, jLookup,
    List.find?, decodeShardAssignments_encode, decodeHostList_encode]

/-- The concrete instance of `test_instances.py`: id "test-tinygrad", empty
shard-assignment maps, one host 127.0.0.1:8000. -/
def testInstance : Instance :=
  .tinygradCPU
    { instance_id := "test-tinygrad"
      shard_assignments :=
        { model_id := "test-model", runner_to_shard := [], node_to_runner := [] }
      hosts := [{ ip := "127.0.0.1", port := 8000 }] }

/-- C6: for every supported `Instance` variant, decode after encode
reproduces the instance in all fields (the quantifier covers empty host
lists and empty shard-assignment maps); the serialized form's top level is
exactly one key equal to the variant's discriminant, with the camelCase
field structure nested under it; the concrete round trip of the repository
test's instance holds; and an unrecognized top-level key fails with
`UnknownVariant`. -/
theorem claim6_instance_roundtrip (inst : Instance) :
    decodeInstance (encodeInstance inst) = Except.ok inst
    ∧ (∃ fields, encodeInstance inst
        = Json.obj [(Instance.discriminant inst, fields)])
    ∧ decodeInstance (encodeInstance testInstance) = Except.ok testInstance
    ∧ decodeInstance (Json.obj [("UnknownInstance", Json.num 0)])
        = Except.error DecodeErr.unknownVariant := by
  have hround : ∀ j : Instance, decodeInstance (encodeInstance j) = Except.ok j := by
    intro j
    obtain ⟨i⟩ := j
    simp [decodeInstance, encodeInstance, Instance.discriminant,
      decodeTinygradCPUInstance_encode]
  obtain ⟨i⟩ := inst
  exact ⟨hround _, ⟨encodeTinygradCPUInstance i, rfl⟩, hround testInstance, by rfl⟩

/-- Input/position consistency of every step trace of the loop body: the
first produced record feeds the whole buffer when the step index is 0 and
the buffer's last token otherwise, at the current position counter; each
later record's model input is exactly the singleton of the previous record's
sampled token, and its `start_pos` is the previous one advanced by the
number of positions the previous step consumed. -/
theorem genLoop_chain {L : Type} (model : List Nat → Nat → L) (sampler : L → Nat)
    (decode : List Nat → List Char) (eos : Option (List Nat)) (mt : Nat) :
    ∀ (fuel idx : Nat) (curr : List Nat) (pos : Nat) (st : TinygradDetokenizer),
      (∀ r ∈ (genLoop model sampler decode eos mt fuel idx curr pos st).head?,
        r.model_input = (if idx = 0 then curr else [curr.getLastD 0])
        ∧ r.pos_before = pos)
      ∧ List.Chain' (fun a b => b.model_input = [a.next_token]
            ∧ b.pos_before = a.pos_before + a.model_input.length)
          (genLoop model sampler decode eos mt fuel idx curr pos st) := by
  intro fuel
  induction fuel with
  | zero =>
    intro idx curr pos st
    refine ⟨?_, by simp [genLoop]⟩
    intro r hr
    simp [genLoop] at hr
  | succ f ih =>
    intro idx curr pos st
    constructor
    · simp only [genLoop, List.head?_cons, Option.mem_def, Option.some.injEq]
      intro r hr
      subst hr
      exact ⟨rfl, rfl⟩
    · simp only [genLoop]
      rw [List.chain'_cons']
      rcases hfin : stoppingEvaluate eos
          (sampler (model (if idx = 0 then curr else [curr.getLastD 0]) pos)) idx mt
        with - | v
      · refine ⟨?_, ?_⟩
        · intro b hb
          obtain ⟨hb1, hb2⟩ :=
            (ih (idx + 1)
              (curr ++ [sampler (model (if idx = 0 then curr else [curr.getLastD 0]) pos)])
              (pos + (if idx = 0 then curr else [curr.getLastD 0]).length)
              (TinygradDetokenizer.add decode st
                (sampler (model (if idx = 0 then curr else [curr.getLastD 0]) pos)))).1 b hb
          rw [if_neg (Nat.succ_ne_zero idx)] at hb1
          simp only [List.getLastD_concat] at hb1
          exact ⟨hb1, hb2⟩
        · exact (ih (idx + 1) _ _ _).2
      · exact ⟨by intro b hb; simp at hb, List.chain'_nil⟩

/-- Spec §4.3 steps 3-4 on the intended loop in general: the first step of
any run feeds the entire encoded prompt at position 0, and every later step
feeds exactly the singleton of the previously sampled token with `start_pos`
advanced by the number of positions the previous step consumed (the prompt
length after step 0, one thereafter). -/
theorem tinygrad_generate_intended_inputs_positions {L : Type}
    (model : List Nat → Nat → L) (sampler : L → Nat)
    (tokenizer : TinygradTokenizer) (task : ChatCompletionTaskParams) :
    (∀ r ∈ (tinygrad_generate_intended model sampler tokenizer task).head?,
      r.model_input
          = tokenizer.tokenizer.encode
              (tokenizer.tokenizer.apply_message_template task.messages false true)
        ∧ r.pos_before = 0)
    ∧ List.Chain' (fun a b => b.model_input = [a.next_token]
          ∧ b.pos_before = a.pos_before + a.model_input.length)
        (tinygrad_generate_intended model sampler tokenizer task) := by
  have h := genLoop_chain model sampler tokenizer.tokenizer.decode
    (some tokenizer.eos_token_ids) (resolveMaxTokens task.max_tokens)
    (resolveMaxTokens task.max_tokens) 0
    (tokenizer.tokenizer.encode
      (tokenizer.tokenizer.apply_message_template task.messages false true))
    0 (TinygradDetokenizer.reset tokenizer.detokenizer)
  unfold tinygrad_generate_intended
  refine ⟨?_, h.2⟩
  intro r hr
  obtain ⟨h1, h2⟩ := h.1 r hr
  rw [if_pos rfl] at h1
  exact ⟨h1, h2⟩
